import Mathlib

/-!
# ReconIQ — Tool Orchestration & Session Engine: verification development

Shallow embedding of the ReconIQ repository's target-validation logic
(frontend, `TargetInput.jsx` / `App.jsx`) and of its tool-orchestration
engine (Config Validator, Execution Plan Builder, Process Supervisor,
Result Normalizer, Session Store).

Strings are modelled as `List Char`.  The JavaScript regular expressions in
the source are embedded as executable Boolean matchers built from
concatenation / alternation / character-class combinators whose language is
exactly the language of the corresponding regex (JS regex `test` with
backtracking over patterns without lookaround succeeds iff the string is in
the pattern's language).
-/

namespace ReconIQ

/-! ## Character classes

`isWordCh` is the JS `\w` class (`[A-Za-z0-9_]`), used by the `\b` word
boundary.  `isSpaceCh` is the JS `\s` class restricted to its ASCII members
(space, tab, LF, VT, FF, CR); the non-ASCII members do not occur in any
input considered here. -/

def isAlphaCh (c : Char) : Bool :=
  ('a' ≤ c && c ≤ 'z') || ('A' ≤ c && c ≤ 'Z')

def isDigitCh (c : Char) : Bool :=
  '0' ≤ c && c ≤ '9'

def isAlnumCh (c : Char) : Bool :=
  isAlphaCh c || isDigitCh c

def isWordCh (c : Char) : Bool :=
  isAlnumCh c || c == '_'

def isSpaceCh (c : Char) : Bool :=
  c == ' ' || c == '\t' || c == '\n' || c == Char.ofNat 11 ||
  c == Char.ofNat 12 || c == '\r'

/-- ASCII lower-casing, for the `/i` flag on the URL regex. -/
def lowerCh (c : Char) : Char :=
  if 'A' ≤ c && c ≤ 'Z' then Char.ofNat (c.toNat + 32) else c

/-! ## Regex-language combinators -/

/-- All decompositions `(a, b)` of `s` with `a ++ b = s`. -/
def splits : List Char → List (List Char × List Char)
  | [] => [([], [])]
  | c :: cs => ([], c :: cs) :: (splits cs).map (fun p => (c :: p.1, p.2))

/-- Concatenation `p q`: some decomposition has its left part in `p` and its
right part in `q`. -/
def seqMatch (p q : List Char → Bool) (s : List Char) : Bool :=
  (splits s).any (fun ab => p ab.1 && q ab.2)

/-- Alternation `p|q`. -/
def altMatch (p q : List Char → Bool) (s : List Char) : Bool :=
  p s || q s

/-- A single character of class `cl` (a regex character class). -/
def chCl (cl : Char → Bool) (s : List Char) : Bool :=
  match s with
  | [a] => cl a
  | _ => false

/-- `p?`: the empty string or a match of `p`. -/
def optMatch (p : List Char → Bool) (s : List Char) : Bool :=
  s.isEmpty || p s

/-- `cl{lo,hi}` over a character class. -/
def repRange (cl : Char → Bool) (lo hi : Nat) (s : List Char) : Bool :=
  decide (lo ≤ s.length) && decide (s.length ≤ hi) && s.all cl

/-- `cl{lo,}` over a character class. -/
def repAtLeast (cl : Char → Bool) (lo : Nat) (s : List Char) : Bool :=
  decide (lo ≤ s.length) && s.all cl

/-- A literal string, matched case-insensitively after ASCII lower-casing
(the target pattern `t` is given already lower-case). -/
def caselessLit (t : List Char) (s : List Char) : Bool :=
  s.map lowerCh == t

/-- The literal character `'.'`. -/
def dotLit (s : List Char) : Bool :=
  s == ['.']

/-! ## `validateTarget` (src/frontend/src/components/TargetInput.jsx, lines 8–15)

```js
const domainRegex = /^[a-zA-Z0-9][a-zA-Z0-9-]{0,61}[a-zA-Z0-9]?\.([a-zA-Z]{2,}|[a-zA-Z]{2,}\.[a-zA-Z]{2,})$/
const ipRegex = /^(?:(?:25[0-5]|2[0-4][0-9]|[01]?[0-9][0-9]?)\.){3}(?:25[0-5]|2[0-4][0-9]|[01]?[0-9][0-9]?)$/
const urlRegex = /^https?:\/\/[^\s/$.?#].[^\s]*$/i
return domainRegex.test(value) || ipRegex.test(value) || urlRegex.test(value)
```
-/

/-- `[a-zA-Z0-9-]`, the characters of a host label body. -/
def isHostCh (c : Char) : Bool :=
  isAlnumCh c || c == '-'

/-- `[a-zA-Z0-9][a-zA-Z0-9-]{0,61}[a-zA-Z0-9]?` — the label before the dot. -/
def domainHeadMatch : List Char → Bool :=
  seqMatch (chCl isAlnumCh)
    (seqMatch (repRange isHostCh 0 61) (optMatch (chCl isAlnumCh)))

/-- `([a-zA-Z]{2,}|[a-zA-Z]{2,}\.[a-zA-Z]{2,})` — the TLD part. -/
def tldMatch : List Char → Bool :=
  altMatch (repAtLeast isAlphaCh 2)
    (seqMatch (repAtLeast isAlphaCh 2) (seqMatch dotLit (repAtLeast isAlphaCh 2)))

/-- The anchored domain regex of `validateTarget`. -/
def domainRegexMatch : List Char → Bool :=
  seqMatch domainHeadMatch (seqMatch dotLit tldMatch)

/-- `25[0-5]|2[0-4][0-9]|[01]?[0-9][0-9]?` — one IPv4 octet. -/
def octetMatch : List Char → Bool :=
  altMatch
    (seqMatch (chCl (fun c => c == '2'))
      (seqMatch (chCl (fun c => c == '5')) (chCl (fun c => '0' ≤ c && c ≤ '5'))))
    (altMatch
      (seqMatch (chCl (fun c => c == '2'))
        (seqMatch (chCl (fun c => '0' ≤ c && c ≤ '4')) (chCl isDigitCh)))
      (seqMatch (optMatch (chCl (fun c => c == '0' || c == '1')))
        (seqMatch (chCl isDigitCh) (optMatch (chCl isDigitCh)))))

/-- The anchored IPv4 regex of `validateTarget`:
`(?:octet\.){3}octet` = `octet.octet.octet.octet`. -/
def ipRegexMatch : List Char → Bool :=
  seqMatch octetMatch (seqMatch dotLit
    (seqMatch octetMatch (seqMatch dotLit
      (seqMatch octetMatch (seqMatch dotLit octetMatch)))))

/-- `[^\s/$.?#]` — first character after the scheme. -/
def urlFirstCh (c : Char) : Bool :=
  !(isSpaceCh c || c == '/' || c == '$' || c == '.' || c == '?' || c == '#')

/-- JS `.` (without the `s` flag): any character but a line terminator. -/
def anyNoNl (c : Char) : Bool :=
  !(c == '\n' || c == '\r' || c == Char.ofNat 0x2028 || c == Char.ofNat 0x2029)

/-- The anchored URL regex of `validateTarget`:
`https?:\/\/[^\s/$.?#].[^\s]*` with the `/i` flag. -/
def urlRegexMatch : List Char → Bool :=
  seqMatch (caselessLit ('h' :: 't' :: 't' :: 'p' :: []))
    (seqMatch (optMatch (caselessLit ['s']))
      (seqMatch (caselessLit (':' :: '/' :: '/' :: []))
        (seqMatch (chCl urlFirstCh)
          (seqMatch (chCl anyNoNl) (fun s => s.all (fun c => !isSpaceCh c))))))

/-- `validateTarget` (TargetInput.jsx line 8–15): true iff one of the three
anchored regexes accepts the whole string. -/
def validateTarget (value : List Char) : Bool :=
  domainRegexMatch value || ipRegexMatch value || urlRegexMatch value

/-! ## `containsTarget` (App.jsx lines 165–172)

```js
const domainRegex = /\b[a-zA-Z0-9][a-zA-Z0-9-]{0,61}[a-zA-Z0-9]?\.([a-zA-Z]{2,}|[a-zA-Z]{2,}\.[a-zA-Z]{2,})\b/
const ipRegex = /\b(?:(?:25[0-5]|2[0-4][0-9]|[01]?[0-9][0-9]?)\.){3}(?:25[0-5]|2[0-4][0-9]|[01]?[0-9][0-9]?)\b/
const urlRegex = /https?:\/\/[^\s/$.?#].[^\s]*/i
return domainRegex.test(message) || ipRegex.test(message) || urlRegex.test(message)
```

The same core languages as in `validateTarget`, but tested unanchored
(somewhere inside the string), with `\b` word boundaries on the domain and
IP patterns. -/

def isWordOpt : Option Char → Bool
  | none => false
  | some c => isWordCh c

/-- JS `\b` between a left neighbour and a right neighbour (`none` = edge of
the string): holds iff exactly one side is a word character. -/
def wordB (l r : Option Char) : Bool :=
  isWordOpt l != isWordOpt r

/-- Unanchored test of the core matcher `m`: some decomposition
`pre ++ mid ++ suf` has `m mid`. -/
def containsSub (m : List Char → Bool) (s : List Char) : Bool :=
  (splits s).any (fun pr => (splits pr.2).any (fun ms => m ms.1))

/-- Unanchored test of `\b m \b`.  The cores used here (domain, IP) only
match nonempty strings that start and end with word characters, so the
characters adjoining the match are exactly `pre.getLast?` and
`suf.head?`. -/
def containsSubB (m : List Char → Bool) (s : List Char) : Bool :=
  (splits s).any (fun pr => (splits pr.2).any (fun ms =>
    wordB pr.1.getLast? ms.1.head? && wordB ms.1.getLast? ms.2.head? && m ms.1))

/-- `containsTarget` (App.jsx lines 165–172). -/
def containsTarget (message : List Char) : Bool :=
  containsSubB domainRegexMatch message ||
  containsSubB ipRegexMatch message ||
  containsSub urlRegexMatch message

/-! ## TargetInput component state (TargetInput.jsx lines 4–30)

State: `target` (the text field, always stored trimmed, line 18–19) and
`isValid` (line 20).  `handleSubmit` (lines 23–30) calls
`onSubmit(target.trim())` iff `target.trim()` is truthy (nonempty) and
`isValid`, then clears the field. -/

/-- JS `String.prototype.trim`: strip whitespace from both ends. -/
def trimJS (s : List Char) : List Char :=
  (s.dropWhile isSpaceCh).rdropWhile isSpaceCh

structure TIState where
  target : List Char
  isValid : Bool
deriving DecidableEq, Repr

/-- `useState('')`, `useState(true)` (lines 5–6). -/
def initTI : TIState :=
  { target := [], isValid := true }

/-- `handleInputChange` (lines 17–21): stores the trimmed value and sets
`isValid` to `value === '' || validateTarget(value)`. -/
def handleInputChange (_st : TIState) (raw : List Char) : TIState :=
  let value := trimJS raw
  { target := value, isValid := value.isEmpty || validateTarget value }

/-- `handleSubmit` (lines 23–30): emits `onSubmit(target.trim())` when
`target.trim()` is nonempty and `isValid`, then resets the field. -/
def handleSubmit (st : TIState) : Option (List Char) × TIState :=
  if !(trimJS st.target).isEmpty && st.isValid then
    (some (trimJS st.target), { st with target := [] })
  else
    (none, st)

/-- States the TargetInput component can reach from its initial state by any
sequence of input changes and submits. -/
inductive TIReachable : TIState → Prop
  | init : TIReachable initTI
  | input (st : TIState) (raw : List Char) :
      TIReachable st → TIReachable (handleInputChange st raw)
  | submit (st : TIState) :
      TIReachable st → TIReachable (handleSubmit st).2

/-! ## Config Validator

Modelled from the spec: the backend orchestration engine
(`backend/app/services`, referenced from README and `frontend/src/services/api.jsx`)
is not part of the visible sources; the Config Validator below follows
spec §4.2 word for word: per-key existence in `supported_options`
(`UnknownOption` on miss), coercion to the declared type
(`InvalidOptionType` on failure, string-to-integer allowed), `[min,max]`
check for integers (`OutOfRange`), `allowed_values` check for
strings/lists (`InvalidValue`), defaults filled for absent options. -/

inductive OptionType where
  | bool | int | str | list
deriving DecidableEq, Repr

inductive Value where
  | vBool (b : Bool)
  | vInt (n : Int)
  | vStr (s : String)
  | vList (xs : List String)
deriving DecidableEq, Repr

inductive ValidationError where
  | unknownOption (key : String)
  | invalidOptionType (key : String)
  | outOfRange (key : String)
  | invalidValue (key : String)
deriving DecidableEq, Repr

structure OptionSpec where
  type : OptionType
  default : Value
  min : Option Int := none
  max : Option Int := none
  allowed : Option (List Value) := none
deriving DecidableEq, Repr

structure ToolDescriptor where
  name : String
  available : Bool
  supported_options : List (String × OptionSpec)
deriving DecidableEq, Repr

/-- Digits of a decimal numeral, most significant first. -/
def digitsToNat (s : List Char) : Nat :=
  s.foldl (fun acc c => acc * 10 + (c.toNat - '0'.toNat)) 0

/-- Parse a nonempty all-digit string as a nonnegative integer. -/
def parseIntS (s : String) : Option Int :=
  let cs := s.toList
  if !cs.isEmpty && cs.all isDigitCh then some (Int.ofNat (digitsToNat cs))
  else none

/-- Coerce a raw value to the declared option type (spec §4.2: the string
`"50"` coerces to the integer `50`); `none` means `InvalidOptionType`. -/
def coerceValue : OptionType → Value → Option Value
  | .bool, .vBool b => some (.vBool b)
  | .int, .vInt n => some (.vInt n)
  | .int, .vStr s => (parseIntS s).map .vInt
  | .str, .vStr s => some (.vStr s)
  | .list, .vList xs => some (.vList xs)
  | _, _ => none

/-- Integer range check against the declared `[min,max]`. -/
def inRange (spec : OptionSpec) (v : Value) : Bool :=
  match v with
  | .vInt n =>
      (match spec.min with | some m => decide (m ≤ n) | none => true) &&
      (match spec.max with | some m => decide (n ≤ m) | none => true)
  | _ => true

/-- `allowed_values` check for string/list values (when declared). -/
def allowedOk (spec : OptionSpec) (v : Value) : Bool :=
  match spec.allowed, v with
  | some vs, .vStr _ => decide (v ∈ vs)
  | some vs, .vList _ => decide (v ∈ vs)
  | _, _ => true

/-- Validate a single set option against its `OptionSpec`. -/
def validateOption (key : String) (spec : OptionSpec) (v : Value) :
    Except ValidationError Value :=
  match coerceValue spec.type v with
  | none => .error (.invalidOptionType key)
  | some w =>
      if !inRange spec w then .error (.outOfRange key)
      else if !allowedOk spec w then .error (.invalidValue key)
      else .ok w

def lookupOpt (opts : List (String × OptionSpec)) (k : String) : Option OptionSpec :=
  (opts.find? (fun p => p.1 == k)).map (·.2)

def lookupVal (raw : List (String × Value)) (k : String) : Option Value :=
  (raw.find? (fun p => p.1 == k)).map (·.2)

/-- The first raw key absent from `supported_options`, if any. -/
def findUnknown (opts : List (String × OptionSpec)) (raw : List (String × Value)) :
    Option String :=
  ((raw.find? (fun p => (lookupOpt opts p.1).isNone)).map (·.1))

/-- Walk `supported_options` in order: a set option is validated, an absent
one takes the descriptor's default. -/
def validateOptions (opts : List (String × OptionSpec)) (raw : List (String × Value)) :
    Except ValidationError (List (String × Value)) :=
  match opts with
  | [] => .ok []
  | (k, spec) :: rest =>
      match (match lookupVal raw k with
             | some v => validateOption k spec v
             | none => .ok spec.default) with
      | .error e => .error e
      | .ok w => (validateOptions rest raw).map (fun ws => (k, w) :: ws)

/-- Modelled from the spec (§4.2 `validate(tool_name, raw_config)`): reject
unknown keys, then validate/default every declared option. -/
def validate (d : ToolDescriptor) (raw : List (String × Value)) :
    Except ValidationError (List (String × Value)) :=
  match findUnknown d.supported_options raw with
  | some k => .error (.unknownOption k)
  | none => validateOptions d.supported_options raw

/-- Registry-level well-formedness of a descriptor: declared option keys are
distinct and every declared default satisfies its own option spec. -/
def DescriptorWF (d : ToolDescriptor) : Prop :=
  (d.supported_options.map (·.1)).Nodup ∧
  ∀ p ∈ d.supported_options, validateOption p.1 p.2 p.2.default = .ok p.2.default

/-! ## Findings, Execution Plan, Process Supervisor

Modelled from the spec (§3, §4.3–§4.5): the Execution Plan Builder,
Process Supervisor and Result Normalizer live in the invisible backend;
the definitions follow the spec's contracts. -/

structure Finding where
  kind : String
  value : String
  source : String
deriving DecidableEq, Repr

inductive Status where
  | completed | failed | timed_out | skipped
deriving DecidableEq, Repr

structure PlanEntry where
  tool : String
  target : String
  config : List (String × Value)
  unavailable : Bool
deriving DecidableEq, Repr

structure ExecutionPlan where
  entries : List PlanEntry
  maxParallel : Nat
deriving DecidableEq, Repr

/-- Outcome of one subprocess invocation, supplied by the host environment:
a finished process with exit code, stdout and stderr, or a timeout with the
output captured so far. -/
inductive RunOutcome where
  | finished (exitCode : Int) (out err : String)
  | timedOut (captured : String)
deriving DecidableEq, Repr

structure ExecutionResult where
  tool : String
  status : Status
  output : String
  errorMsg : Option String
  findings : List Finding
deriving DecidableEq, Repr

/-- Modelled from the spec (§4.4): one planned invocation.  An entry flagged
unavailable is `skipped` without launching; otherwise the subprocess outcome
`env i` is classified: exit 0 → `completed`, nonzero → `failed` with stderr
recorded, timeout → `timed_out` with partial output kept and still
normalized (`norm`). -/
def runTool (env : Nat → RunOutcome) (norm : String → String → List Finding)
    (i : Nat) (e : PlanEntry) : ExecutionResult :=
  if e.unavailable then
    { tool := e.tool, status := .skipped, output := "", errorMsg := none, findings := [] }
  else
    match env i with
    | .finished code out err =>
        if code == 0 then
          { tool := e.tool, status := .completed, output := out,
            errorMsg := none, findings := norm e.tool out }
        else
          { tool := e.tool, status := .failed, output := out,
            errorMsg := some err, findings := [] }
    | .timedOut captured =>
        { tool := e.tool, status := .timed_out, output := captured,
          errorMsg := none, findings := norm e.tool captured }

def executeFrom (env : Nat → RunOutcome) (norm : String → String → List Finding)
    (i : Nat) : List PlanEntry → List ExecutionResult
  | [] => []
  | e :: rest => runTool env norm i e :: executeFrom env norm (i + 1) rest

/-- Modelled from the spec (§4.4 `execute(plan)`): every planned entry is
run (independently) and yields exactly one `ExecutionResult`. -/
def execute (env : Nat → RunOutcome) (norm : String → String → List Finding)
    (plan : ExecutionPlan) : List ExecutionResult :=
  executeFrom env norm 0 plan.entries

/-! ## Result aggregation (spec §4.5) -/

/-- Findings collapse iff kind, value and source tool all agree (spec §3:
identical findings from different tools are preserved with distinct
sources). -/
def sameKey (f g : Finding) : Bool :=
  decide (f.kind = g.kind ∧ f.value = g.value ∧ f.source = g.source)

/-- Keep the first occurrence of every (kind, value, source) key. -/
def dedupFindings : List Finding → List Finding
  | [] => []
  | f :: rest => f :: dedupFindings (rest.filter (fun g => !sameKey f g))
termination_by fs => fs.length
decreasing_by
  simp only [List.length_cons]
  exact Nat.lt_succ_of_le (List.length_filter_le _ _)

structure ToolSummary where
  status : Status
  findings_count : Nat
deriving DecidableEq, Repr

/-- All findings contributed by a plan's execution results, in order. -/
def allFindings (results : List ExecutionResult) : List Finding :=
  results.foldr (fun r acc => r.findings ++ acc) []

/-- Modelled from the spec (§4.5 `aggregate(execution_results)`): the
deduplicated findings of the plan plus the per-tool execution summary. -/
def aggregate (results : List ExecutionResult) :
    List Finding × List (String × ToolSummary) :=
  (dedupFindings (allFindings results),
   results.map (fun r => (r.tool, { status := r.status, findings_count := r.findings.length })))

/-! ## Execution Plan Builder (spec §4.3) -/

structure Registry where
  tools : List ToolDescriptor
deriving DecidableEq, Repr

def findTool (reg : Registry) (name : String) : Option ToolDescriptor :=
  reg.tools.find? (fun d => d.name == name)

inductive BuildError where
  | invalidTarget
  | toolNotFound (name : String)
  | configError (tool : String) (e : ValidationError)
deriving DecidableEq, Repr

/-- Resolve, validate and flag each requested tool in order. -/
def buildEntries (reg : Registry) (target : String) (names : List String)
    (rawConfigs : String → List (String × Value)) :
    Except BuildError (List PlanEntry) :=
  match names with
  | [] => .ok []
  | n :: rest =>
      match findTool reg n with
      | none => .error (.toolNotFound n)
      | some d =>
          match validate d (rawConfigs n) with
          | .error e => .error (.configError n e)
          | .ok cfg =>
              (buildEntries reg target rest rawConfigs).map
                (fun es => { tool := n, target := target, config := cfg,
                             unavailable := !d.available } :: es)

def maxParallelCap : Nat := 5

/-- Modelled from the spec (§4.3 `build`): the target is validated
structurally (domain, IP literal, or URL — the `validateTarget` shapes)
before the registry is consulted; unavailable tools stay in the plan,
flagged to be skipped. -/
def buildPlan (reg : Registry) (target : String) (names : List String)
    (rawConfigs : String → List (String × Value)) :
    Except BuildError ExecutionPlan :=
  if !validateTarget target.toList then .error .invalidTarget
  else
    (buildEntries reg target names rawConfigs).map
      (fun es => { entries := es, maxParallel := min es.length maxParallelCap })

/-! ## Session Store (spec §4.6) -/

structure Session where
  id : String
  turns : List (String × String)
  findings : List Finding
  startTime : Nat
  lastActivity : Nat
deriving DecidableEq, Repr

abbrev SessionStore := List Session

inductive SessionError where
  | sessionNotFound
deriving DecidableEq, Repr

/-- Modelled from the spec (§4.6 `delete(session_id)`, §7, §8 scenario):
deleting an unknown id surfaces `SessionNotFound`, never a silent
success; deleting a present id removes it. -/
def deleteSession (store : SessionStore) (sid : String) :
    Except SessionError SessionStore :=
  if store.any (fun s => s.id == sid) then
    .ok (store.filter (fun s => !(s.id == sid)))
  else
    .error .sessionNotFound

/-! ## Concrete instances used by witnesses -/

def threadsDescriptor : ToolDescriptor :=
  { name := "subfinder", available := true,
    supported_options :=
      [("threads", { type := .int, default := .vInt 10,
                     min := some 1, max := some 200 })] }

def exampleRegistry : Registry :=
  { tools := [threadsDescriptor,
              { name := "amass", available := false, supported_options := [] }] }

def emptyRegistry : Registry :=
  { tools := [] }

def sessionA : Session :=
  { id := "a1b2", turns := [("hi", "hello")], findings := [], startTime := 0, lastActivity := 1 }

/-- The plan `buildPlan exampleRegistry "google.com" ["amass"]` produces:
the unavailable tool is present, flagged to be skipped. -/
def exampleSkippedPlan : ExecutionPlan :=
  { entries := [{ tool := "amass", target := "google.com", config := [],
                  unavailable := true }],
    maxParallel := 1 }

/-- Two-entry plan used by witnesses. -/
def planTwo : ExecutionPlan :=
  { entries :=
      [{ tool := "subfinder", target := "example.com", config := [], unavailable := false },
       { tool := "httpx", target := "example.com", config := [], unavailable := false }],
    maxParallel := 2 }

/-- Environment where invocation 0 fails and every other one succeeds. -/
def envFailZero : Nat → RunOutcome :=
  fun i => if i == 0 then .finished 1 "" "boom" else .finished 0 "ok.example.com" ""

/-- Environment where every invocation succeeds. -/
def envAllOk : Nat → RunOutcome :=
  fun _ => .finished 0 "ok.example.com" ""

/-- Trivial normalizer used by witnesses. -/
def normNone : String → String → List Finding :=
  fun _ _ => []

def findingA : Finding :=
  { kind := "subdomain", value := "x.example.com", source := "subfinder" }

def findingB : Finding :=
  { kind := "subdomain", value := "x.example.com", source := "amass" }

/-- A result reporting the same finding twice from one tool. -/
def resultA : ExecutionResult :=
  { tool := "subfinder", status := .completed, output := "", errorMsg := none,
    findings := [findingA, findingA] }

/-- A second tool reporting the identical (kind, value) pair. -/
def resultB : ExecutionResult :=
  { tool := "amass", status := .completed, output := "", errorMsg := none,
    findings := [findingB] }

/-! # Theorems -/

/-! ## Combinator language lemmas -/

theorem splits_mem_iff (s a b : List Char) : (a, b) ∈ splits s ↔ a ++ b = s := by
  induction s generalizing a b with
  | nil =>
    simp [splits]
  | cons c cs ih =>
    simp only [splits, List.mem_cons, List.mem_map, Prod.mk.injEq]
    constructor
    · rintro (⟨ha, hb⟩ | ⟨⟨p1, p2⟩, hp, ha, hb⟩)
      · subst ha; subst hb; rfl
      · subst ha; subst hb
        have := (ih p1 p2).mp hp
        simp [← this]
    · intro h
      cases a with
      | nil =>
        left
        exact ⟨rfl, by simpa using h⟩
      | cons a0 as =>
        right
        have h1 : a0 = c := by injection h
        have h2 : as ++ b = cs := by injection h
        exact ⟨(as, b), (ih as b).mpr h2, by simp [h1], rfl⟩

theorem seqMatch_iff (p q : List Char → Bool) (s : List Char) :
    seqMatch p q s = true ↔ ∃ a b, a ++ b = s ∧ p a = true ∧ q b = true := by
  simp only [seqMatch, List.any_eq_true]
  constructor
  · rintro ⟨⟨a, b⟩, hm, hpq⟩
    rw [Bool.and_eq_true] at hpq
    exact ⟨a, b, (splits_mem_iff s a b).mp hm, hpq.1, hpq.2⟩
  · rintro ⟨a, b, hab, hp, hq⟩
    exact ⟨(a, b), (splits_mem_iff s a b).mpr hab, by simp [hp, hq]⟩

theorem chCl_iff (cl : Char → Bool) (s : List Char) :
    chCl cl s = true ↔ ∃ a, s = [a] ∧ cl a = true := by
  cases s with
  | nil => simp [chCl]
  | cons a t =>
    cases t with
    | nil => simp [chCl]
    | cons b t' => simp [chCl]

theorem altMatch_iff (p q : List Char → Bool) (s : List Char) :
    altMatch p q s = true ↔ p s = true ∨ q s = true := by
  simp [altMatch]

theorem optMatch_iff (p : List Char → Bool) (s : List Char) :
    optMatch p s = true ↔ s = [] ∨ p s = true := by
  simp [optMatch, List.isEmpty_iff]

theorem repAtLeast_iff (cl : Char → Bool) (lo : Nat) (s : List Char) :
    repAtLeast cl lo s = true ↔ lo ≤ s.length ∧ ∀ c ∈ s, cl c = true := by
  simp [repAtLeast, List.all_eq_true]

/-! ## Edge characters of the anchored matches -/

theorem domainRegexMatch_head (s : List Char) (h : domainRegexMatch s = true) :
    ∃ c t, s = c :: t ∧ isAlnumCh c = true := by
  simp only [domainRegexMatch] at h
  rw [seqMatch_iff] at h
  obtain ⟨a, b, hab, hhead, -⟩ := h
  simp only [domainHeadMatch] at hhead
  rw [seqMatch_iff] at hhead
  obtain ⟨a1, a2, ha12, hc, -⟩ := hhead
  rw [chCl_iff] at hc
  obtain ⟨c, rfl, hcl⟩ := hc
  exact ⟨c, a2 ++ b, by rw [← hab, ← ha12]; simp, hcl⟩

theorem tldMatch_last (t : List Char) (h : tldMatch t = true) :
    ∃ d, t.getLast? = some d ∧ isAlphaCh d = true := by
  simp only [tldMatch, altMatch_iff] at h
  rcases h with h | h
  · rw [repAtLeast_iff] at h
    obtain ⟨hlen, hall⟩ := h
    have hne : t ≠ [] := by
      intro he; subst he; simp at hlen
    exact ⟨t.getLast hne, List.getLast?_eq_getLast_of_ne_nil hne,
      hall _ (List.getLast_mem hne)⟩
  · rw [seqMatch_iff] at h
    obtain ⟨a, b, hab, -, hb⟩ := h
    rw [seqMatch_iff] at hb
    obtain ⟨b1, b2, hb12, -, hb2⟩ := hb
    rw [repAtLeast_iff] at hb2
    obtain ⟨hlen, hall⟩ := hb2
    have hne : b2 ≠ [] := by
      intro he; subst he; simp at hlen
    have hlast : t.getLast? = b2.getLast? := by
      rw [← hab, ← hb12, ← List.append_assoc]
      exact List.getLast?_append_of_ne_nil _ hne
    exact ⟨b2.getLast hne, by rw [hlast]; exact List.getLast?_eq_getLast_of_ne_nil hne,
      hall _ (List.getLast_mem hne)⟩

theorem domainRegexMatch_last (s : List Char) (h : domainRegexMatch s = true) :
    ∃ d, s.getLast? = some d ∧ isAlphaCh d = true := by
  simp only [domainRegexMatch] at h
  rw [seqMatch_iff] at h
  obtain ⟨a, b, hab, -, hb⟩ := h
  rw [seqMatch_iff] at hb
  obtain ⟨b1, b2, hb12, hdot, htld⟩ := hb
  obtain ⟨d, hd, halpha⟩ := tldMatch_last b2 htld
  have hne : b2 ≠ [] := by
    intro he; subst he; simp at hd
  refine ⟨d, ?_, halpha⟩
  rw [← hab, ← hb12, ← List.append_assoc]
  rw [List.getLast?_append_of_ne_nil _ hne]
  exact hd

theorem octetMatch_digits (o : List Char) (h : octetMatch o = true) :
    o ≠ [] ∧ ∀ c ∈ o, isDigitCh c = true := by
  simp only [octetMatch, altMatch_iff] at h
  have hd2 : isDigitCh '2' = true := by decide
  have hd5 : isDigitCh '5' = true := by decide
  rcases h with h | h | h
  · rw [seqMatch_iff] at h
    obtain ⟨a, b, hab, ha, hb⟩ := h
    rw [chCl_iff] at ha
    obtain ⟨c1, rfl, hc1⟩ := ha
    rw [seqMatch_iff] at hb
    obtain ⟨b1, b2, hb12, hb1, hb2⟩ := hb
    rw [chCl_iff] at hb1 hb2
    obtain ⟨c2, rfl, hc2⟩ := hb1
    obtain ⟨c3, rfl, hc3⟩ := hb2
    subst hb12
    subst hab
    refine ⟨by simp, ?_⟩
    intro c hc
    simp only [List.mem_append, List.mem_singleton, List.mem_cons,
      List.not_mem_nil, or_false] at hc
    rcases hc with rfl | rfl | rfl
    · simpa [eq_of_beq hc1]
    · simpa [eq_of_beq hc2]
    · rw [Bool.and_eq_true] at hc3
      simp only [isDigitCh, Bool.and_eq_true, decide_eq_true_eq] at *
      exact ⟨hc3.1, le_trans hc3.2 (by decide)⟩
  · rw [seqMatch_iff] at h
    obtain ⟨a, b, hab, ha, hb⟩ := h
    rw [chCl_iff] at ha
    obtain ⟨c1, rfl, hc1⟩ := ha
    rw [seqMatch_iff] at hb
    obtain ⟨b1, b2, hb12, hb1, hb2⟩ := hb
    rw [chCl_iff] at hb1 hb2
    obtain ⟨c2, rfl, hc2⟩ := hb1
    obtain ⟨c3, rfl, hc3⟩ := hb2
    subst hb12
    subst hab
    refine ⟨by simp, ?_⟩
    intro c hc
    simp only [List.mem_append, List.mem_singleton, List.mem_cons,
      List.not_mem_nil, or_false] at hc
    rcases hc with rfl | rfl | rfl
    · simpa [eq_of_beq hc1]
    · rw [Bool.and_eq_true] at hc2
      simp only [isDigitCh, Bool.and_eq_true, decide_eq_true_eq] at *
      exact ⟨hc2.1, le_trans hc2.2 (by decide)⟩
    · exact hc3
  · rw [seqMatch_iff] at h
    obtain ⟨a, b, hab, ha, hb⟩ := h
    rw [seqMatch_iff] at hb
    obtain ⟨b1, b2, hb12, hb1, hb2⟩ := hb
    rw [chCl_iff] at hb1
    obtain ⟨c2, rfl, hc2⟩ := hb1
    rw [optMatch_iff] at ha hb2
    subst hb12
    subst hab
    constructor
    · rcases ha with rfl | ha <;> simp
    · intro c hc
      simp only [List.mem_append, List.mem_singleton, List.mem_cons,
        List.not_mem_nil, or_false] at hc
      rcases hc with hc | rfl | hc
      · rcases ha with rfl | ha
        · simp at hc
        · rw [chCl_iff] at ha
          obtain ⟨c1, rfl, hc1⟩ := ha
          simp only [List.mem_singleton] at hc
          subst hc
          rw [Bool.or_eq_true] at hc1
          rcases hc1 with hc1 | hc1
          · simpa [eq_of_beq hc1]
          · simpa [eq_of_beq hc1]
      · exact hc2
      · rcases hb2 with rfl | hb2
        · simp at hc
        · rw [chCl_iff] at hb2
          obtain ⟨c3, rfl, hc3⟩ := hb2
          simp only [List.mem_singleton] at hc
          subst hc
          exact hc3

theorem ipRegexMatch_head (s : List Char) (h : ipRegexMatch s = true) :
    ∃ c t, s = c :: t ∧ isDigitCh c = true := by
  simp only [ipRegexMatch] at h
  rw [seqMatch_iff] at h
  obtain ⟨o1, b, hab, ho1, -⟩ := h
  obtain ⟨hne, hall⟩ := octetMatch_digits o1 ho1
  obtain ⟨c, o1', rfl⟩ := List.exists_cons_of_ne_nil hne
  exact ⟨c, o1' ++ b, by rw [← hab]; simp, hall c (by simp)⟩

theorem ipRegexMatch_last (s : List Char) (h : ipRegexMatch s = true) :
    ∃ d, s.getLast? = some d ∧ isDigitCh d = true := by
  simp only [ipRegexMatch] at h
  rw [seqMatch_iff] at h
  obtain ⟨o1, b1, hb1, -, h⟩ := h
  rw [seqMatch_iff] at h
  obtain ⟨p1, b2, hb2, -, h⟩ := h
  rw [seqMatch_iff] at h
  obtain ⟨o2, b3, hb3, -, h⟩ := h
  rw [seqMatch_iff] at h
  obtain ⟨p2, b4, hb4, -, h⟩ := h
  rw [seqMatch_iff] at h
  obtain ⟨o3, b5, hb5, -, h⟩ := h
  rw [seqMatch_iff] at h
  obtain ⟨p3, o4, hb6, -, ho4⟩ := h
  obtain ⟨hne, hall⟩ := octetMatch_digits o4 ho4
  have hne6 : p3 ++ o4 ≠ [] := fun he => hne (List.append_eq_nil.mp he).2
  have hne5 : o3 ++ (p3 ++ o4) ≠ [] := fun he => hne6 (List.append_eq_nil.mp he).2
  have hne4 : p2 ++ (o3 ++ (p3 ++ o4)) ≠ [] := fun he => hne5 (List.append_eq_nil.mp he).2
  have hne3 : o2 ++ (p2 ++ (o3 ++ (p3 ++ o4))) ≠ [] :=
    fun he => hne4 (List.append_eq_nil.mp he).2
  have hne2 : p1 ++ (o2 ++ (p2 ++ (o3 ++ (p3 ++ o4)))) ≠ [] :=
    fun he => hne3 (List.append_eq_nil.mp he).2
  subst hb6; subst hb5; subst hb4; subst hb3; subst hb2; subst hb1
  obtain ⟨c, o', rfl⟩ := List.exists_cons_of_ne_nil hne
  have hd : (c :: o').getLast? = some ((c :: o').getLast (by simp)) :=
    List.getLast?_eq_getLast_of_ne_nil (by simp)
  refine ⟨(c :: o').getLast (by simp), ?_, hall _ (List.getLast_mem (by simp))⟩
  rw [List.getLast?_append_of_ne_nil _ hne2, List.getLast?_append_of_ne_nil _ hne3,
    List.getLast?_append_of_ne_nil _ hne4, List.getLast?_append_of_ne_nil _ hne5,
    List.getLast?_append_of_ne_nil _ hne6, List.getLast?_append_of_ne_nil _ hne]
  exact hd

/-! ## Unanchored matching from a full-string match -/

theorem containsSub_of_full (m : List Char → Bool) (s : List Char)
    (hm : m s = true) : containsSub m s = true := by
  simp only [containsSub]
  rw [List.any_eq_true]
  refine ⟨([], s), (splits_mem_iff s [] s).mpr rfl, ?_⟩
  rw [List.any_eq_true]
  exact ⟨(s, []), (splits_mem_iff s s []).mpr (by simp), hm⟩

theorem containsSubB_of_full (m : List Char → Bool) (s : List Char)
    (hm : m s = true)
    (hhead : isWordOpt s.head? = true) (hlast : isWordOpt s.getLast? = true) :
    containsSubB m s = true := by
  simp only [containsSubB]
  rw [List.any_eq_true]
  refine ⟨([], s), (splits_mem_iff s [] s).mpr rfl, ?_⟩
  rw [List.any_eq_true]
  refine ⟨(s, []), (splits_mem_iff s s []).mpr (by simp), ?_⟩
  have h1 : isWordOpt none = false := rfl
  simp [wordB, h1, hhead, hlast, hm]

/-- C9: every string accepted by the anchored target validator
(`validateTarget`, TargetInput.jsx) is also detected by the unanchored
target detector used for chat messages (`containsTarget`, App.jsx): the
language of `validateTarget` is a subset of the language of
`containsTarget`. -/
theorem c9_validateTarget_subset_containsTarget (s : List Char)
    (h : validateTarget s = true) : containsTarget s = true := by
  simp only [validateTarget, Bool.or_eq_true, or_assoc] at h
  simp only [containsTarget, Bool.or_eq_true, or_assoc]
  rcases h with h | h | h
  · obtain ⟨c, t, hs, hc⟩ := domainRegexMatch_head s h
    obtain ⟨d, hd, hdA⟩ := domainRegexMatch_last s h
    left
    apply containsSubB_of_full _ _ h
    · rw [hs]
      simp only [List.head?_cons, isWordOpt, isWordCh, hc, Bool.true_or]
    · rw [hd]
      simp only [isWordOpt, isWordCh, isAlnumCh, hdA, Bool.true_or, Bool.or_true]
  · obtain ⟨c, t, hs, hc⟩ := ipRegexMatch_head s h
    obtain ⟨d, hd, hdD⟩ := ipRegexMatch_last s h
    right; left
    apply containsSubB_of_full _ _ h
    · rw [hs]
      simp only [List.head?_cons, isWordOpt, isWordCh, isAlnumCh, hc,
        Bool.or_true, Bool.true_or]
    · rw [hd]
      simp only [isWordOpt, isWordCh, isAlnumCh, hdD, Bool.or_true, Bool.true_or]
  · right; right
    exact containsSub_of_full _ _ h

/-- Witness for C9 at the concrete accepted target `"google.com"`. -/
theorem c9_witness :
    validateTarget ("google.com".toList) = true ∧
    containsTarget ("google.com".toList) = true :=
  ⟨by decide, c9_validateTarget_subset_containsTarget ("google.com".toList) (by decide)⟩

/-! ## TargetInput form behaviour -/

theorem trimJS_idem (s : List Char) : trimJS (trimJS s) = trimJS s := by
  have h1 : (trimJS s).dropWhile isSpaceCh = trimJS s := by
    rcases ht : s.dropWhile isSpaceCh with - | ⟨c, t'⟩
    · simp [trimJS, ht]
    · rcases hu : (s.dropWhile isSpaceCh).rdropWhile isSpaceCh with - | ⟨u0, u'⟩
      · simp [trimJS, hu]
      · have hc : isSpaceCh c = false := by
          have hl : 0 < (s.dropWhile isSpaceCh).length := by rw [ht]; simp
          have h2 := List.dropWhile_get_zero_not isSpaceCh s hl
          rw [List.get_of_eq ht] at h2
          simpa using h2
        have hpre := List.rdropWhile_prefix isSpaceCh (s.dropWhile isSpaceCh)
        rw [hu, ht] at hpre
        obtain ⟨r, hr⟩ := hpre
        have hu0 : u0 = c := by injection hr
        have htr : trimJS s = u0 :: u' := by
          rw [trimJS, hu]
        rw [htr, List.dropWhile_cons, hu0, hc]
        simp
  calc trimJS (trimJS s)
      = ((trimJS s).dropWhile isSpaceCh).rdropWhile isSpaceCh := rfl
    _ = (trimJS s).rdropWhile isSpaceCh := by rw [h1]
    _ = ((s.dropWhile isSpaceCh).rdropWhile isSpaceCh).rdropWhile isSpaceCh := rfl
    _ = (s.dropWhile isSpaceCh).rdropWhile isSpaceCh :=
        List.rdropWhile_idempotent isSpaceCh _
    _ = trimJS s := rfl

/-- Invariant of every reachable TargetInput state: the stored target is
trimmed, and `isValid` tracks `target === '' || validateTarget(target)`. -/
theorem tiReachable_inv (st : TIState) (h : TIReachable st) :
    trimJS st.target = st.target ∧
    st.isValid = (st.target.isEmpty || validateTarget st.target) := by
  induction h with
  | init => exact ⟨rfl, rfl⟩
  | input st raw _ _ => exact ⟨trimJS_idem raw, rfl⟩
  | submit st _ ih =>
    by_cases hb : (!(trimJS st.target).isEmpty && st.isValid) = true
    · have hsub : handleSubmit st = (some (trimJS st.target), { st with target := [] }) := by
        simp [handleSubmit, hb]
      rw [hsub]
      refine ⟨rfl, ?_⟩
      rw [Bool.and_eq_true] at hb
      simp [hb.2]
    · have hsub : handleSubmit st = (none, st) := by
        simp only [handleSubmit]
        rw [if_neg hb]
      rw [hsub]
      exact ih

/-- C10: the TargetInput form submits only a non-empty, trimmed string that
passes `validateTarget`; an (effectively) empty input leaves `isValid` true
yet can never be submitted. -/
theorem c10_submit_only_valid :
    (∀ st t st2, TIReachable st → handleSubmit st = (some t, st2) →
       t ≠ [] ∧ validateTarget t = true ∧ trimJS t = t) ∧
    (∀ st raw, trimJS raw = [] →
       (handleInputChange st raw).isValid = true ∧
       handleSubmit (handleInputChange st raw) = (none, handleInputChange st raw)) := by
  constructor
  · intro st t st2 hreach hsub
    obtain ⟨hTrim, hValid⟩ := tiReachable_inv st hreach
    by_cases hb : (!(trimJS st.target).isEmpty && st.isValid) = true
    · have hsub2 : handleSubmit st = (some (trimJS st.target), { st with target := [] }) := by
        simp [handleSubmit, hb]
      rw [hsub2] at hsub
      have ht : t = trimJS st.target := by
        have := congrArg Prod.fst hsub
        simpa using this.symm
      rw [Bool.and_eq_true, Bool.not_eq_true'] at hb
      subst ht
      rw [hTrim]
      refine ⟨?_, ?_, hTrim⟩
      · intro he
        rw [hTrim, he] at hb
        simp at hb
      · rw [hValid] at hb
        rcases hb with ⟨hemp, hval⟩
        rw [hTrim] at hemp
        simpa [hemp] using hval.symm
    · have hsub2 : handleSubmit st = (none, st) := by
        simp only [handleSubmit]
        rw [if_neg hb]
      rw [hsub2] at hsub
      exact absurd (congrArg Prod.fst hsub) (by simp)
  · intro st raw hr
    refine ⟨?_, ?_⟩
    · simp [handleInputChange, hr]
    · simp only [handleSubmit, handleInputChange, hr]
      rfl

/-- Witness for C10: submitting the reachable state holding `"google.com"`
emits that exact non-empty validated string. -/
theorem c10_witness :
    ("google.com".toList ≠ []) ∧ validateTarget ("google.com".toList) = true ∧
      trimJS ("google.com".toList) = "google.com".toList :=
  (c10_submit_only_valid).1 (handleInputChange initTI ("google.com".toList))
    ("google.com".toList) { target := [], isValid := true }
    (TIReachable.input initTI ("google.com".toList) TIReachable.init)
    (by decide)

/-! ## Target validation and fail-fast planning -/

/-- C2: target validation accepts a string iff it is structurally a domain
name, an IP literal, or a URL (the three regex shapes of `validateTarget`);
the IP literal `"10.0.0.5"` is accepted just like a domain; and a string
matching none of the shapes is rejected by the plan builder as
`InvalidTarget`, independently of (and without consulting) the registry. -/
theorem c2_target_validation_iff :
    (∀ s, validateTarget s = true ↔
       (domainRegexMatch s = true ∨ ipRegexMatch s = true ∨ urlRegexMatch s = true)) ∧
    validateTarget ("10.0.0.5".toList) = true ∧
    (∀ reg reg' t names cfgs, validateTarget t.toList = false →
       buildPlan reg t names cfgs = .error .invalidTarget ∧
       buildPlan reg t names cfgs = buildPlan reg' t names cfgs) := by
  refine ⟨?_, by decide, ?_⟩
  · intro s
    simp [validateTarget, or_assoc]
  · intro reg reg' t names cfgs h
    have h2 : validateTarget t.data = false := h
    constructor
    · simp [buildPlan, h2]
    · simp [buildPlan, h2]

/-- Witness for C2 at the concrete rejected target `"###"`. -/
theorem c2_witness :
    buildPlan exampleRegistry "###" [] (fun _ => []) = .error .invalidTarget ∧
    buildPlan exampleRegistry "###" [] (fun _ => []) =
      buildPlan emptyRegistry "###" [] (fun _ => []) :=
  c2_target_validation_iff.2.2 exampleRegistry emptyRegistry "###" [] (fun _ => [])
    (by decide)

/-! ## Process Supervisor -/

theorem runTool_tool (env : Nat → RunOutcome) (norm : String → String → List Finding)
    (i : Nat) (e : PlanEntry) : (runTool env norm i e).tool = e.tool := by
  simp only [runTool]
  split
  · rfl
  · split
    · split <;> rfl
    · rfl

theorem runTool_congr (env env' : Nat → RunOutcome) (norm : String → String → List Finding)
    (i : Nat) (e : PlanEntry) (h : env i = env' i) :
    runTool env norm i e = runTool env' norm i e := by
  simp only [runTool, h]

theorem executeFrom_length (env : Nat → RunOutcome) (norm : String → String → List Finding)
    (es : List PlanEntry) (i : Nat) :
    (executeFrom env norm i es).length = es.length := by
  induction es generalizing i with
  | nil => rfl
  | cons e rest ih => simp [executeFrom, ih]

theorem executeFrom_map_tool (env : Nat → RunOutcome) (norm : String → String → List Finding)
    (es : List PlanEntry) (i : Nat) :
    (executeFrom env norm i es).map (·.tool) = es.map (·.tool) := by
  induction es generalizing i with
  | nil => rfl
  | cons e rest ih => simp [executeFrom, ih, runTool_tool]

theorem executeFrom_getElem? (env : Nat → RunOutcome) (norm : String → String → List Finding)
    (es : List PlanEntry) (k j : Nat) :
    (executeFrom env norm k es)[j]? = (es[j]?).map (fun e => runTool env norm (k + j) e) := by
  induction es generalizing k j with
  | nil => simp [executeFrom]
  | cons e rest ih =>
    cases j with
    | zero => simp [executeFrom]
    | succ j' =>
      have harith : k + (j' + 1) = (k + 1) + j' := by omega
      simp only [executeFrom, List.getElem?_cons_succ, harith]
      exact ih (k + 1) j'

/-- C1: for every `ExecutionPlan` with N tool entries, `execute` returns
exactly N `ExecutionResult`s, one per planned entry (tool names preserved
position by position, even for failing or unavailable tools), each with a
status among completed, failed, timed_out, skipped. -/
theorem c1_execute_one_result_per_entry (env : Nat → RunOutcome)
    (norm : String → String → List Finding) (plan : ExecutionPlan) :
    (execute env norm plan).length = plan.entries.length ∧
    (execute env norm plan).map (·.tool) = plan.entries.map (·.tool) ∧
    ∀ r ∈ execute env norm plan,
      r.status = .completed ∨ r.status = .failed ∨
      r.status = .timed_out ∨ r.status = .skipped := by
  refine ⟨executeFrom_length env norm plan.entries 0,
    executeFrom_map_tool env norm plan.entries 0, ?_⟩
  intro r _
  rcases r with ⟨tool, status, output, errorMsg, findings⟩
  cases status <;> simp

/-- Witness for C1 on a concrete two-tool plan (first invocation fails). -/
theorem c1_witness :
    (execute envFailZero normNone planTwo).length = planTwo.entries.length ∧
    (execute envFailZero normNone planTwo).map (·.tool) = planTwo.entries.map (·.tool) ∧
    (({ tool := "subfinder", status := .failed, output := "",
        errorMsg := some "boom", findings := [] } : ExecutionResult).status = .completed ∨
     ({ tool := "subfinder", status := .failed, output := "",
        errorMsg := some "boom", findings := [] } : ExecutionResult).status = .failed ∨
     ({ tool := "subfinder", status := .failed, output := "",
        errorMsg := some "boom", findings := [] } : ExecutionResult).status = .timed_out ∨
     ({ tool := "subfinder", status := .failed, output := "",
        errorMsg := some "boom", findings := [] } : ExecutionResult).status = .skipped) :=
  ⟨(c1_execute_one_result_per_entry envFailZero normNone planTwo).1,
   (c1_execute_one_result_per_entry envFailZero normNone planTwo).2.1,
   (c1_execute_one_result_per_entry envFailZero normNone planTwo).2.2 _ (by decide)⟩

/-- C6: one invocation's behaviour never influences any other entry's
result: results of a plan agree position by position between any two
environments that agree away from invocation `i`; the execution is total
(N results for N entries), and a nonzero exit of entry `i` is recorded as a
`failed` status with the stderr captured in that entry's own
`ExecutionResult`, not propagated. -/
theorem c6_failure_isolated (env env' : Nat → RunOutcome)
    (norm : String → String → List Finding) (plan : ExecutionPlan) (i : Nat)
    (hagree : ∀ j, j ≠ i → env j = env' j) :
    (execute env norm plan).length = plan.entries.length ∧
    (∀ j, j ≠ i → (execute env norm plan)[j]? = (execute env' norm plan)[j]?) ∧
    (∀ (h : i < plan.entries.length), ∀ code out err,
       (plan.entries[i]).unavailable = false → env i = .finished code out err →
       code ≠ 0 →
       (execute env norm plan)[i]? =
         some { tool := (plan.entries[i]).tool, status := .failed, output := out,
                errorMsg := some err, findings := [] }) := by
  refine ⟨executeFrom_length env norm plan.entries 0, ?_, ?_⟩
  · intro j hj
    rw [execute, execute, executeFrom_getElem?, executeFrom_getElem?]
    cases hjq : plan.entries[j]? with
    | none => rfl
    | some e =>
      simp [runTool_congr env env' norm j e (hagree j hj)]
  · intro h code out err hunav henv hcode
    rw [execute, executeFrom_getElem?, List.getElem?_eq_getElem h]
    have hzi : (0 : Nat) + i = i := by omega
    rw [Option.map_some', hzi]
    have hbeq : (code == 0) = false := by
      simpa using hcode
    simp [runTool, hunav, henv, hbeq]

/-- Witness for C6: on the concrete two-tool plan, invocation 0 failing
leaves result 1 identical to the all-success run, and result 0 records the
failure. -/
theorem c6_witness :
    (execute envFailZero normNone planTwo).length = planTwo.entries.length ∧
    (execute envFailZero normNone planTwo)[1]? = (execute envAllOk normNone planTwo)[1]? ∧
    (execute envFailZero normNone planTwo)[0]? =
      some { tool := "subfinder", status := .failed, output := "",
             errorMsg := some "boom", findings := [] } := by
  have h := c6_failure_isolated envFailZero envAllOk normNone planTwo 0
    (fun j hj => by simp [envFailZero, envAllOk, hj])
  exact ⟨h.1, h.2.1 1 (by decide),
    h.2.2 (by decide) 1 "" "boom" (by decide) rfl (by decide)⟩

/-! ## Deduplication within one plan -/

theorem sameKey_iff (f g : Finding) :
    sameKey f g = true ↔ f.kind = g.kind ∧ f.value = g.value ∧ f.source = g.source := by
  simp [sameKey]

theorem sameKey_refl (f : Finding) : sameKey f f = true := by
  rw [sameKey_iff]
  exact ⟨rfl, rfl, rfl⟩

theorem sameKey_symm (f g : Finding) (h : sameKey f g = true) : sameKey g f = true := by
  rw [sameKey_iff] at h ⊢
  exact ⟨h.1.symm, h.2.1.symm, h.2.2.symm⟩

theorem sameKey_trans (f g k : Finding) (h1 : sameKey f g = true)
    (h2 : sameKey g k = true) : sameKey f k = true := by
  rw [sameKey_iff] at h1 h2 ⊢
  exact ⟨h1.1.trans h2.1, h1.2.1.trans h2.2.1, h1.2.2.trans h2.2.2⟩

theorem dedupFindings_mem (fs : List Finding) (f : Finding)
    (h : f ∈ dedupFindings fs) : f ∈ fs := by
  induction fs using dedupFindings.induct with
  | case1 => rw [dedupFindings] at h; simp at h
  | case2 g rest ih =>
    rw [dedupFindings] at h
    rcases List.mem_cons.mp h with rfl | h2
    · exact List.mem_cons_self _ _
    · exact List.mem_cons_of_mem _ (List.mem_of_mem_filter (ih h2))

theorem dedupFindings_exists (fs : List Finding) (f : Finding) (h : f ∈ fs) :
    ∃ g, g ∈ dedupFindings fs ∧ sameKey g f = true := by
  induction fs using dedupFindings.induct with
  | case1 => simp at h
  | case2 g0 rest ih =>
    by_cases hk : sameKey g0 f = true
    · exact ⟨g0, by rw [dedupFindings]; exact List.mem_cons_self _ _, hk⟩
    · rcases List.mem_cons.mp h with rfl | h2
      · exact absurd (sameKey_refl f) hk
      · have hf : f ∈ rest.filter (fun g => !sameKey g0 g) := by
          rw [List.mem_filter]
          refine ⟨h2, ?_⟩
          simp [Bool.not_eq_true] at hk
          simp [hk]
        obtain ⟨g, hg1, hg2⟩ := ih hf
        exact ⟨g, by rw [dedupFindings]; exact List.mem_cons_of_mem _ hg1, hg2⟩

theorem dedupFindings_countP_le_one (fs : List Finding) (f : Finding) :
    (dedupFindings fs).countP (fun g => sameKey g f) ≤ 1 := by
  induction fs using dedupFindings.induct with
  | case1 => rw [dedupFindings]; simp
  | case2 g0 rest ih =>
    rw [dedupFindings, List.countP_cons]
    by_cases hk : sameKey g0 f = true
    · have hzero :
          (dedupFindings (rest.filter (fun g => !sameKey g0 g))).countP
            (fun g => sameKey g f) = 0 := by
        rw [List.countP_eq_zero]
        intro g hg
        have hgf := (List.mem_filter.mp (dedupFindings_mem _ _ hg)).2
        intro hcon
        have hg0g : sameKey g0 g = true :=
          sameKey_trans g0 f g hk (sameKey_symm g f hcon)
        rw [hg0g] at hgf
        simp at hgf
      simp [hzero, hk]
    · simp only [hk, if_false]
      simpa using ih

/-- C3: within one plan's aggregation, two findings with the same
(kind, value) from the same tool collapse to a single finding, while the
same (kind, value) from two different tools both survive with their
distinct source tools. -/
theorem c3_dedup_within_plan (results : List ExecutionResult) (f1 f2 : Finding)
    (h1 : f1 ∈ allFindings results) (h2 : f2 ∈ allFindings results)
    (_hk : f1.kind = f2.kind) (_hv : f1.value = f2.value) :
    (f1.source = f2.source →
       (aggregate results).1.countP (fun g => sameKey g f1) = 1) ∧
    (f1.source ≠ f2.source →
       ∃ g1 g2, g1 ∈ (aggregate results).1 ∧ g2 ∈ (aggregate results).1 ∧
         g1.kind = f1.kind ∧ g1.value = f1.value ∧ g1.source = f1.source ∧
         g2.kind = f2.kind ∧ g2.value = f2.value ∧ g2.source = f2.source) := by
  constructor
  · intro _
    show (dedupFindings (allFindings results)).countP (fun g => sameKey g f1) = 1
    have hle := dedupFindings_countP_le_one (allFindings results) f1
    obtain ⟨g, hg, hgk⟩ := dedupFindings_exists (allFindings results) f1 h1
    have hpos : 0 < (dedupFindings (allFindings results)).countP (fun g => sameKey g f1) := by
      rw [List.countP_pos_iff]
      exact ⟨g, hg, hgk⟩
    omega
  · intro _
    obtain ⟨g1, hg1, hk1⟩ := dedupFindings_exists (allFindings results) f1 h1
    obtain ⟨g2, hg2, hk2⟩ := dedupFindings_exists (allFindings results) f2 h2
    rw [sameKey_iff] at hk1 hk2
    exact ⟨g1, g2, hg1, hg2, hk1.1, hk1.2.1, hk1.2.2, hk2.1, hk2.2.1, hk2.2.2⟩

/-- Witness for C3 on a concrete pair of results: the duplicated
same-source finding counts once after aggregation, and the cross-tool
duplicate survives for both tools. -/
theorem c3_witness :
    ((aggregate [resultA, resultB]).1.countP (fun g => sameKey g findingA) = 1) ∧
    (∃ g1 g2, g1 ∈ (aggregate [resultA, resultB]).1 ∧ g2 ∈ (aggregate [resultA, resultB]).1 ∧
       g1.kind = findingA.kind ∧ g1.value = findingA.value ∧ g1.source = findingA.source ∧
       g2.kind = findingB.kind ∧ g2.value = findingB.value ∧ g2.source = findingB.source) :=
  ⟨(c3_dedup_within_plan [resultA, resultB] findingA findingA
      (by decide) (by decide) rfl rfl).1 rfl,
   (c3_dedup_within_plan [resultA, resultB] findingA findingB
      (by decide) (by decide) rfl rfl).2 (by decide)⟩

/-! ## Config Validator -/

theorem lookupVal_cons_self (k : String) (w : Value) (t : List (String × Value)) :
    lookupVal ((k, w) :: t) k = some w := by
  simp [lookupVal, List.find?_cons]

theorem lookupVal_cons_ne (k0 k : String) (w : Value) (t : List (String × Value))
    (h : k0 ≠ k) : lookupVal ((k0, w) :: t) k = lookupVal t k := by
  simp [lookupVal, List.find?_cons, h]

theorem lookupVal_eq_some (raw : List (String × Value)) (k : String) (v : Value)
    (h : lookupVal raw k = some v) : ∃ p ∈ raw, p.1 = k ∧ p.2 = v := by
  rw [lookupVal] at h
  rw [Option.map_eq_some'] at h
  obtain ⟨p, hp, hv⟩ := h
  exact ⟨p, List.mem_of_find?_eq_some hp,
    by simpa using List.find?_some hp, hv⟩

theorem lookupOpt_isSome_of_mem (opts : List (String × OptionSpec)) (k : String)
    (h : k ∈ opts.map (·.1)) : (lookupOpt opts k).isSome = true := by
  rw [List.mem_map] at h
  obtain ⟨p, hp, hk⟩ := h
  rw [lookupOpt, Option.isSome_map']
  rw [List.find?_isSome]
  exact ⟨p, hp, by simp [hk]⟩

theorem findUnknown_eq_none_iff (opts : List (String × OptionSpec))
    (raw : List (String × Value)) :
    findUnknown opts raw = none ↔ ∀ p ∈ raw, (lookupOpt opts p.1).isSome = true := by
  rw [findUnknown, Option.map_eq_none']
  rw [List.find?_eq_none]
  constructor
  · intro h p hp
    have := h p hp
    simpa [Option.isNone_iff_eq_none, Option.isSome_iff_ne_none] using this
  · intro h p hp
    have := h p hp
    simp only [Option.isNone_iff_eq_none]
    rw [Option.isSome_iff_ne_none] at this
    simpa using this

theorem validateOption_ok_iff (key : String) (spec : OptionSpec) (v w : Value) :
    validateOption key spec v = .ok w ↔
      coerceValue spec.type v = some w ∧ inRange spec w = true ∧
      allowedOk spec w = true := by
  constructor
  · intro h
    rw [validateOption] at h
    cases hc : coerceValue spec.type v with
    | none => rw [hc] at h; exact absurd h (by simp)
    | some u =>
      rw [hc] at h
      by_cases h1 : inRange spec u = true
      · by_cases h2 : allowedOk spec u = true
        · simp only [h1, h2, Bool.not_true, Bool.false_eq_true, if_false] at h
          have hw : u = w := by simpa using h
          subst hw
          exact ⟨rfl, h1, h2⟩
        · rw [Bool.not_eq_true] at h2
          simp [h1, h2] at h
      · rw [Bool.not_eq_true] at h1
        simp [h1] at h
  · rintro ⟨hc, h1, h2⟩
    rw [validateOption, hc]
    simp [h1, h2]

theorem validateOptions_lookup (opts : List (String × OptionSpec))
    (raw cfg : List (String × Value)) (k : String) (spec : OptionSpec) (v : Value)
    (hok : validateOptions opts raw = .ok cfg)
    (hspec : lookupOpt opts k = some spec) (hval : lookupVal raw k = some v) :
    ∃ w, lookupVal cfg k = some w ∧ validateOption k spec v = .ok w := by
  induction opts generalizing cfg with
  | nil => simp [lookupOpt] at hspec
  | cons p rest ih =>
    obtain ⟨k0, spec0⟩ := p
    simp only [validateOptions] at hok
    cases hv0 : (match lookupVal raw k0 with
                 | some v => validateOption k0 spec0 v
                 | none => Except.ok spec0.default) with
    | error e => rw [hv0] at hok; simp at hok
    | ok w =>
      rw [hv0] at hok
      cases hrest : validateOptions rest raw with
      | error e => rw [hrest] at hok; simp [Except.map] at hok
      | ok cfg' =>
        rw [hrest] at hok
        simp only [Except.map, Except.ok.injEq] at hok
        subst hok
        by_cases hkk : k0 = k
        · subst hkk
          have hspec0 : spec0 = spec := by
            rw [lookupOpt] at hspec
            simp [List.find?_cons] at hspec
            exact hspec
          subst hspec0
          rw [hval] at hv0
          exact ⟨w, lookupVal_cons_self k0 w cfg', hv0⟩
        · have hspec' : lookupOpt rest k = some spec := by
            rw [lookupOpt] at hspec ⊢
            simpa [List.find?_cons, hkk] using hspec
          obtain ⟨w', hw1, hw2⟩ := ih cfg' hrest hspec'
          exact ⟨w', by rw [lookupVal_cons_ne k0 k w cfg' hkk]; exact hw1, hw2⟩

/-- C4: the Config Validator rejects unknown keys with `UnknownOption`
(never dropping them silently), and an accepted configuration keeps every
raw value as its faithful coercion, in range and allowed (so out-of-range
integers are never silently clamped); concretely, `threads = 5000` against
a `max 200` descriptor is rejected with `OutOfRange`. -/
theorem c4_validator_rejects :
    (∀ (d : ToolDescriptor) (raw : List (String × Value)),
       (∃ p ∈ raw, lookupOpt d.supported_options p.1 = none) →
       ∃ k, k ∈ raw.map (·.1) ∧ lookupOpt d.supported_options k = none ∧
         validate d raw = .error (.unknownOption k)) ∧
    (∀ (d : ToolDescriptor) (raw cfg : List (String × Value)),
       validate d raw = .ok cfg →
       ∀ k v, lookupVal raw k = some v →
         ∃ spec w, lookupOpt d.supported_options k = some spec ∧
           lookupVal cfg k = some w ∧ coerceValue spec.type v = some w ∧
           inRange spec w = true ∧ allowedOk spec w = true) ∧
    validate threadsDescriptor [("threads", .vInt 5000)] = .error (.outOfRange "threads") := by
  refine ⟨?_, ?_, rfl⟩
  · intro d raw hex
    have hsome : (raw.find? (fun p => (lookupOpt d.supported_options p.1).isNone)).isSome = true := by
      rw [List.find?_isSome]
      obtain ⟨p, hp, hnone⟩ := hex
      exact ⟨p, hp, by simp [hnone]⟩
    rw [Option.isSome_iff_exists] at hsome
    obtain ⟨q, hq⟩ := hsome
    refine ⟨q.1, ?_, ?_, ?_⟩
    · exact List.mem_map.mpr ⟨q, List.mem_of_find?_eq_some hq, rfl⟩
    · have := List.find?_some hq
      simpa [Option.isNone_iff_eq_none] using this
    · rw [validate]
      have hfu : findUnknown d.supported_options raw = some q.1 := by
        rw [findUnknown, hq, Option.map_some']
      rw [hfu]
  · intro d raw cfg hok k v hval
    rw [validate] at hok
    cases hfu : findUnknown d.supported_options raw with
    | some k0 => rw [hfu] at hok; simp at hok
    | none =>
      rw [hfu] at hok
      have hsome : (lookupOpt d.supported_options k).isSome = true := by
        obtain ⟨p, hp, hpk, -⟩ := lookupVal_eq_some raw k v hval
        have := (findUnknown_eq_none_iff _ _).mp hfu p hp
        rwa [hpk] at this
      rw [Option.isSome_iff_exists] at hsome
      obtain ⟨spec, hspec⟩ := hsome
      obtain ⟨w, hw1, hw2⟩ :=
        validateOptions_lookup d.supported_options raw cfg k spec v hok hspec hval
      rw [validateOption_ok_iff] at hw2
      exact ⟨spec, w, hspec, hw1, hw2.1, hw2.2.1, hw2.2.2⟩

/-- Witness for C4: the unknown key `"bogus"` is rejected, and an
in-range `threads = 50` round-trips through the accepted configuration. -/
theorem c4_witness :
    (∃ k, k ∈ ([(("bogus" : String), Value.vInt 1)].map (·.1)) ∧
       lookupOpt threadsDescriptor.supported_options k = none ∧
       validate threadsDescriptor [("bogus", Value.vInt 1)] = .error (.unknownOption k)) ∧
    (∃ spec w, lookupOpt threadsDescriptor.supported_options "threads" = some spec ∧
       lookupVal [(("threads" : String), Value.vInt 50)] "threads" = some w ∧
       coerceValue spec.type (Value.vInt 50) = some w ∧
       inRange spec w = true ∧ allowedOk spec w = true) :=
  ⟨c4_validator_rejects.1 threadsDescriptor [("bogus", Value.vInt 1)]
      ⟨("bogus", Value.vInt 1), by simp, rfl⟩,
   c4_validator_rejects.2.1 threadsDescriptor [("threads", Value.vInt 50)]
      [("threads", Value.vInt 50)] rfl "threads" (Value.vInt 50) rfl⟩

/-! ## Idempotence of validation -/

theorem coerceValue_stable (t : OptionType) (v w : Value)
    (h : coerceValue t v = some w) : coerceValue t w = some w := by
  cases t <;> cases v <;> simp [coerceValue] at h <;>
    first
      | (subst h; rfl)
      | (obtain ⟨n, -, hw⟩ := h; subst hw; rfl)

theorem validateOption_stable (key : String) (spec : OptionSpec) (v w : Value)
    (h : validateOption key spec v = .ok w) : validateOption key spec w = .ok w := by
  rw [validateOption_ok_iff] at h ⊢
  exact ⟨coerceValue_stable spec.type v w h.1, h.2.1, h.2.2⟩

theorem validateOptions_congr (opts : List (String × OptionSpec))
    (raw raw' : List (String × Value))
    (h : ∀ p ∈ opts, lookupVal raw p.1 = lookupVal raw' p.1) :
    validateOptions opts raw = validateOptions opts raw' := by
  induction opts with
  | nil => rfl
  | cons p rest ih =>
    obtain ⟨k, spec⟩ := p
    simp only [validateOptions]
    rw [h (k, spec) (List.mem_cons_self _ _)]
    rw [ih (fun q hq => h q (List.mem_cons_of_mem _ hq))]

theorem validateOptions_keys (opts : List (String × OptionSpec))
    (raw cfg : List (String × Value)) (hok : validateOptions opts raw = .ok cfg) :
    cfg.map (·.1) = opts.map (·.1) := by
  induction opts generalizing cfg with
  | nil =>
    simp only [validateOptions, Except.ok.injEq] at hok
    subst hok
    rfl
  | cons p rest ih =>
    obtain ⟨k, spec⟩ := p
    simp only [validateOptions] at hok
    cases hv0 : (match lookupVal raw k with
                 | some v => validateOption k spec v
                 | none => Except.ok spec.default) with
    | error e => rw [hv0] at hok; simp at hok
    | ok w =>
      rw [hv0] at hok
      cases hrest : validateOptions rest raw with
      | error e => rw [hrest] at hok; simp [Except.map] at hok
      | ok cfg' =>
        rw [hrest] at hok
        simp only [Except.map, Except.ok.injEq] at hok
        subst hok
        simp [ih cfg' hrest]

theorem validateOptions_idem (opts : List (String × OptionSpec))
    (raw cfg : List (String × Value))
    (hnd : (opts.map (·.1)).Nodup)
    (hwf : ∀ p ∈ opts, validateOption p.1 p.2 p.2.default = .ok p.2.default)
    (hok : validateOptions opts raw = .ok cfg) :
    validateOptions opts cfg = .ok cfg := by
  induction opts generalizing raw cfg with
  | nil =>
    simp only [validateOptions, Except.ok.injEq] at hok
    subst hok
    rfl
  | cons p rest ih =>
    obtain ⟨k, spec⟩ := p
    simp only [validateOptions] at hok
    cases hv0 : (match lookupVal raw k with
                 | some v => validateOption k spec v
                 | none => Except.ok spec.default) with
    | error e => rw [hv0] at hok; simp at hok
    | ok w =>
      rw [hv0] at hok
      cases hrest : validateOptions rest raw with
      | error e => rw [hrest] at hok; simp [Except.map] at hok
      | ok cfg' =>
        rw [hrest] at hok
        simp only [Except.map, Except.ok.injEq] at hok
        subst hok
        have hvw : validateOption k spec w = .ok w := by
          cases hlv : lookupVal raw k with
          | some v =>
            rw [hlv] at hv0
            exact validateOption_stable k spec v w hv0
          | none =>
            rw [hlv] at hv0
            have hwd : spec.default = w := by simpa using hv0
            subst hwd
            exact hwf (k, spec) (List.mem_cons_self _ _)
        have hknotin : k ∉ rest.map (·.1) := by
          rw [List.map_cons, List.nodup_cons] at hnd
          exact hnd.1
        have hcongr : validateOptions rest ((k, w) :: cfg') = validateOptions rest cfg' := by
          apply validateOptions_congr
          intro q hq
          apply lookupVal_cons_ne
          intro hqk
          exact hknotin (hqk ▸ List.mem_map.mpr ⟨q, hq, rfl⟩)
        have hnd' : (rest.map (·.1)).Nodup := by
          rw [List.map_cons, List.nodup_cons] at hnd
          exact hnd.2
        simp only [validateOptions, lookupVal_cons_self, hvw, hcongr,
          ih raw cfg' hnd' (fun q hq => hwf q (List.mem_cons_of_mem _ hq)) hrest]
        rfl

/-- C5: validation is a pure function of its inputs (it is a Lean function,
hence deterministic and free of I/O), and it is idempotent: re-validating a
`ToolConfig` the validator produced for a well-formed descriptor succeeds
and returns that same config unchanged. -/
theorem c5_validation_idempotent (d : ToolDescriptor) (raw cfg : List (String × Value))
    (hwf : DescriptorWF d) (hok : validate d raw = .ok cfg) :
    validate d cfg = .ok cfg := by
  rw [validate] at hok
  cases hfu : findUnknown d.supported_options raw with
  | some k => rw [hfu] at hok; simp at hok
  | none =>
    rw [hfu] at hok
    have hkeys := validateOptions_keys d.supported_options raw cfg hok
    rw [validate]
    have hfu2 : findUnknown d.supported_options cfg = none := by
      rw [findUnknown_eq_none_iff]
      intro p hp
      exact lookupOpt_isSome_of_mem _ _
        (by rw [← hkeys]; exact List.mem_map.mpr ⟨p, hp, rfl⟩)
    rw [hfu2]
    exact validateOptions_idem d.supported_options raw cfg hwf.1 hwf.2 hok

/-- Witness for C5: the accepted raw config `threads = "50"` (a string that
coerces to the integer 50) validates to `threads = 50`, which re-validates
to itself. -/
theorem c5_witness :
    validate threadsDescriptor [("threads", Value.vInt 50)] =
      .ok [("threads", Value.vInt 50)] :=
  c5_validation_idempotent threadsDescriptor [("threads", Value.vStr "50")]
    [("threads", Value.vInt 50)]
    ⟨by decide, by intro p hp; simp only [threadsDescriptor, List.mem_singleton] at hp; subst hp; rfl⟩
    rfl

/-! ## Plan construction with unavailable tools -/

theorem buildEntries_ok (reg : Registry) (target : String) (names : List String)
    (cfgs : String → List (String × Value)) (es : List PlanEntry)
    (h : buildEntries reg target names cfgs = .ok es) :
    es.map (·.tool) = names ∧
    ∀ e ∈ es, ∃ d, findTool reg e.tool = some d ∧ e.unavailable = !d.available := by
  induction names generalizing es with
  | nil =>
    simp only [buildEntries, Except.ok.injEq] at h
    subst h
    simp
  | cons n rest ih =>
    simp only [buildEntries] at h
    split at h
    · exact absurd h (by simp)
    next d hf =>
      split at h
      · exact absurd h (by simp)
      next cfg hv =>
        cases hb : buildEntries reg target rest cfgs with
        | error e0 => rw [hb] at h; simp [Except.map] at h
        | ok es' =>
          rw [hb] at h
          simp only [Except.map, Except.ok.injEq] at h
          subst h
          obtain ⟨ih1, ih2⟩ := ih es' hb
          refine ⟨by simp [ih1], ?_⟩
          intro e he
          rcases List.mem_cons.mp he with rfl | he2
          · exact ⟨d, hf, rfl⟩
          · exact ih2 e he2

/-- C7: a successfully built plan contains one entry per requested tool, in
order; every entry carries the availability flag of its registry
descriptor, so a requested tool whose executable is unavailable still
appears in the plan, flagged to be skipped rather than omitted, while the
plan proceeds with the remaining tools. -/
theorem c7_unavailable_flagged_not_dropped (reg : Registry) (target : String)
    (names : List String) (cfgs : String → List (String × Value))
    (plan : ExecutionPlan)
    (hok : buildPlan reg target names cfgs = .ok plan) :
    plan.entries.map (·.tool) = names ∧
    (∀ e ∈ plan.entries, ∃ d, findTool reg e.tool = some d ∧
       e.unavailable = !d.available) ∧
    (∀ name d, name ∈ names → findTool reg name = some d → d.available = false →
       ∃ e ∈ plan.entries, e.tool = name ∧ e.unavailable = true) := by
  rw [buildPlan] at hok
  split at hok
  · simp at hok
  · cases hb : buildEntries reg target names cfgs with
    | error e0 => rw [hb] at hok; simp [Except.map] at hok
    | ok es =>
      rw [hb] at hok
      simp only [Except.map, Except.ok.injEq] at hok
      subst hok
      obtain ⟨h1, h2⟩ := buildEntries_ok reg target names cfgs es hb
      refine ⟨h1, h2, ?_⟩
      intro name d hn hf hav
      rw [← h1] at hn
      obtain ⟨e, he, hetool⟩ := List.mem_map.mp hn
      obtain ⟨d', hd', hunav⟩ := h2 e he
      rw [hetool] at hd'
      rw [hf] at hd'
      have hdd : d = d' := Option.some.inj hd'
      subst hdd
      exact ⟨e, he, hetool, by rw [hunav, hav]; rfl⟩

/-- Witness for C7: requesting the unavailable tool `"amass"` yields a plan
whose entry for it is flagged skipped. -/
theorem c7_witness :
    ∃ e ∈ exampleSkippedPlan.entries, e.tool = "amass" ∧ e.unavailable = true :=
  (c7_unavailable_flagged_not_dropped exampleRegistry "google.com" ["amass"]
      (fun _ => []) exampleSkippedPlan rfl).2.2
    "amass" { name := "amass", available := false, supported_options := [] }
    (by simp) rfl rfl

/-! ## Session deletion -/

/-- C8: deleting a session id absent from the store surfaces
`SessionNotFound` (never a silent success), while deleting a present id
succeeds and removes exactly the sessions with that id; the result
distinguishes the two cases. -/
theorem c8_delete_distinguishes (store : SessionStore) (sid : String) :
    ((∀ s ∈ store, s.id ≠ sid) → deleteSession store sid = .error .sessionNotFound) ∧
    (∀ s, s ∈ store → s.id = sid →
       ∃ store2, deleteSession store sid = .ok store2 ∧
         (∀ s2 ∈ store2, s2.id ≠ sid) ∧ ∀ s2 ∈ store2, s2 ∈ store) := by
  constructor
  · intro h
    rw [deleteSession, if_neg]
    intro hany
    rw [List.any_eq_true] at hany
    obtain ⟨s, hs, hbeq⟩ := hany
    exact h s hs (by simpa using hbeq)
  · intro s hs hid
    have hany : store.any (fun s => s.id == sid) = true := by
      rw [List.any_eq_true]
      exact ⟨s, hs, by simp [hid]⟩
    rw [deleteSession, if_pos hany]
    refine ⟨_, rfl, ?_, ?_⟩
    · intro s2 hs2
      have h2 := (List.mem_filter.mp hs2).2
      simpa using h2
    · intro s2 hs2
      exact (List.mem_filter.mp hs2).1

/-- Witness for C8 on a one-session store. -/
theorem c8_witness :
    deleteSession [sessionA] "zzzz" = .error .sessionNotFound ∧
    ∃ store2, deleteSession [sessionA] "a1b2" = .ok store2 ∧
      (∀ s2 ∈ store2, s2.id ≠ "a1b2") ∧ ∀ s2 ∈ store2, s2 ∈ [sessionA] :=
  ⟨(c8_delete_distinguishes [sessionA] "zzzz").1 (by decide),
   (c8_delete_distinguishes [sessionA] "a1b2").2 sessionA (by simp) rfl⟩

end ReconIQ
